import Mathlib

set_option maxHeartbeats 1000000

/-!
Shallow embedding of `tass_scraper.py` (opnweb/tass-scraper), together with
proofs checking the natural-language specification against the code.

Machine conventions used throughout:
* Python exceptions become an explicit `err` constructor carrying the message.
* The Python floats `min_delay`/`max_delay` only ever feed an ordering
  comparison, so they are modelled as rationals.
* Shared mutable state (`errors_occurred`, the user-agent usage counters) is
  modelled by explicit state passing through fold/step functions.
* Filesystem and network effects are modelled as values (event traces and
  `Option` artifacts) so each claim can be stated about them.
-/

namespace TassScraper

/-- Result of one article fetch task, as seen by `process_category`: either the
enriched article returned by `fetch_article_content`, or the message of the
exception it (re-)raised. -/
inductive FetchResult (α : Type) where
  | ok : α → FetchResult α
  | err : String → FetchResult α
deriving DecidableEq, Repr

/-- Whether the task raised. -/
def FetchResult.isErr {α : Type} : FetchResult α → Bool
  | .ok _ => false
  | .err _ => true

/-- The successful value, if any. -/
def FetchResult.okPart {α : Type} : FetchResult α → Option α
  | .ok a => some a
  | .err _ => none

/-- The collection loop of `NewsScraper.process_category` (the
`for i, future in enumerate(future_to_article, 1)` loop): iterate over the
future map in insertion order; on success append the article to
`processed_articles`, on an exception log one error (recorded failure).
The state is `(processed_articles, number of recorded per-item failures)`. -/
def collect_loop {α : Type} (acc : List α × Nat) (rs : List (FetchResult α)) :
    List α × Nat :=
  rs.foldl (fun acc r =>
    match r with
    | .ok a => (acc.1 ++ [a], acc.2)
    | .err _ => (acc.1, acc.2 + 1)) acc

/-- `process_category`, restricted to its outcome bookkeeping: the loop starts
from an empty `processed_articles` list and no recorded failures. -/
def process_category_outcomes {α : Type} (rs : List (FetchResult α)) :
    List α × Nat :=
  collect_loop ([], 0) rs

/-- The `errors_occurred` flag contribution of one category's item loop:
set iff at least one item task raised. -/
def items_failed {α : Type} (rs : List (FetchResult α)) : Bool :=
  rs.any (fun r => r.isErr)

/-! ### Completion/submission order model (`process_category`, C5)

Each submitted task is paired with the instant its thread finishes the fetch.
The loop `for future in future_to_article: future.result()` walks the future
map in insertion (= submission) order and blocks on each future in turn, so the
`k`-th append happens at the maximum of the clock so far and task `k`'s
completion instant. -/

/-- The append events of the collection loop: for each task (in submission
order) the appended value and the instant the append can happen. -/
def append_events {α : Type} : List (α × Nat) → Nat → List (α × Nat)
  | [], _ => []
  | (a, t) :: rest, clock => (a, max clock t) :: append_events rest (max clock t)

/-- The order in which the loop actually collects values. -/
def collected_order {α : Type} (tasks : List (α × Nat)) : List α :=
  (append_events tasks 0).map Prod.fst

/-- Follows the spec's words: the order in which the fetch tasks finish, i.e.
the values sorted by completion instant (stably). -/
def completion_order {α : Type} (tasks : List (α × Nat)) : List α :=
  (tasks.insertionSort (fun a b => a.2 ≤ b.2)).map Prod.fst

/-! ### Run-level failure accounting (`NewsScraper.run`, C2) -/

/-- The fixed category table of `NewsScraper.CATEGORY_MAP`. -/
def CATEGORY_MAP : List (String × Nat) :=
  [("politics", 4954), ("world", 4844), ("economy", 4845), ("defense", 4953),
   ("science", 4957), ("emergencies", 4992), ("society", 4956),
   ("pressreview", 4981), ("sports", 4869)]

/-- Category-name membership test (`if category in self.CATEGORY_MAP`). -/
def recognized_category (c : String) : Bool :=
  (CATEGORY_MAP.map Prod.fst).contains c

/-- What the world hands one category: the listing call either raises or yields
the per-item task results. -/
inductive CategoryFetch where
  | listErr : CategoryFetch
  | listOk : List (FetchResult Unit) → CategoryFetch

/-- Whether processing this category records any failure: a listing error is
caught by `process_category`'s outer `except`, and each item error is recorded
by the inner loop; both set `errors_occurred`. -/
def category_failed : CategoryFetch → Bool
  | .listErr => true
  | .listOk rs => items_failed rs

/-- One iteration of the category loop in `NewsScraper.run`, acting on the
shared `errors_occurred` flag: a recognized category may mark the flag via its
failures; an unrecognized name marks it outright. The flag is only ever OR-ed,
never cleared. -/
def run_step (world : String → CategoryFetch) (flag : Bool) (c : String) : Bool :=
  if recognized_category c then flag || category_failed (world c)
  else true

/-- The `errors_occurred` flag after the whole category loop of `run`,
starting from the `False` set in `__init__`. -/
def run_flag (world : String → CategoryFetch) (cats : List String) : Bool :=
  cats.foldl (run_step world) false

/-- The final branch of `run`: the success message is printed iff
`errors_occurred` is still false. -/
def run_reports_success (world : String → CategoryFetch) (cats : List String) : Bool :=
  !(run_flag world cats)

/-! ### Configuration (`NewsScraperConfig`) -/

/-- The configuration record of `NewsScraperConfig`, restricted to the fields
the core reads.  The Python ints may be non-positive, hence `Int`; the two
delay floats are only ever compared with each other and fed to
`random.uniform`, so they are modelled as rationals. -/
structure NewsScraperConfig where
  headlines_per_category : Int
  categories : List String
  max_workers : Int
  output_dir : String
  include_top_words : Bool
  min_delay : Rat
  max_delay : Rat
  max_retries : Nat
  use_csv : Bool

/-- `NewsScraperConfig.validate` (lines 34-42): true iff no `ValueError` is
raised, i.e. all four checked constraints hold. -/
def NewsScraperConfig.validate_ok (cfg : NewsScraperConfig) : Bool :=
  decide (0 < cfg.headlines_per_category) && decide (0 < cfg.max_workers)
    && decide (cfg.min_delay < cfg.max_delay) && !cfg.categories.isEmpty

/-! ### User-agent rotation (`UserAgentRotator`, C4)

`usage_counts` is a dict with one integer counter per distinct user-agent
string; we abstract the string keys to list positions. -/

/-- `min(self.usage_counts.values())`. -/
def min_usage : List Nat → Nat
  | [] => 0
  | [c] => c
  | c :: c2 :: cs => Nat.min c (min_usage (c2 :: cs))

/-- The maximum usage count (used to state the dispersion bound). -/
def max_usage : List Nat → Nat
  | [] => 0
  | [c] => c
  | c :: c2 :: cs => Nat.max c (max_usage (c2 :: cs))

/-- The state change of one `get_next_user_agent()` call once `random.choice`
has picked position `i`: increment that counter. -/
def rotator_step (counts : List Nat) (i : Nat) : List Nat :=
  counts.set i (counts.getD i 0 + 1)

/-- `random.choice(least_used)` can only pick a position whose counter equals
the minimum: this is the side condition on the chosen index. -/
def valid_choice (counts : List Nat) (i : Nat) : Bool :=
  decide (i < counts.length) && decide (counts.getD i 0 = min_usage counts)

/-- The counters after a sequence of calls with the given chosen positions. -/
def rotator_run (counts : List Nat) : List Nat → List Nat
  | [] => counts
  | i :: is => rotator_run (rotator_step counts i) is

/-- Every chosen position along the run was a least-used one at its time. -/
def valid_run (counts : List Nat) : List Nat → Bool
  | [] => true
  | i :: is => valid_choice counts i && valid_run (rotator_step counts i) is

/-- The dispersion invariant maintained by least-used selection: every counter
is at most one above the minimum. -/
def usage_inv (l : List Nat) : Prop := ∀ x ∈ l, x ≤ min_usage l + 1

/-! ### Top-words computation (`get_top_words`, C9)

The regex `\b\w+'\w+|\w+\b` is embedded for ASCII text: a token is a maximal
run of word characters, optionally continued through one apostrophe into a
second word-character run.  The scan is modelled as a character-by-character
state machine. -/

/-- The `\w` class as it applies to ASCII text. -/
def word_char (c : Char) : Bool := c.isAlphanum || c = '_'

/-- Scanner state: emitted tokens, the current buffer, whether the buffer
already contains its one apostrophe, and whether an apostrophe was just seen
right after a word-character run (and is waiting for a word character). -/
structure TokState where
  tokens : List (List Char)
  buf : List Char
  apo : Bool
  pending : Bool

/-- One scanner transition, mirroring how `re.findall` with the pattern above
consumes one character. -/
def tok_step (st : TokState) (c : Char) : TokState :=
  if word_char c then
    if st.pending then
      { tokens := st.tokens, buf := st.buf ++ '\'' :: [c], apo := true, pending := false }
    else
      { tokens := st.tokens, buf := st.buf ++ [c], apo := st.apo, pending := false }
  else if c = '\'' then
    if st.buf.isEmpty then
      { tokens := st.tokens, buf := [], apo := false, pending := false }
    else if st.apo || st.pending then
      { tokens := st.tokens ++ [st.buf], buf := [], apo := false, pending := false }
    else
      { tokens := st.tokens, buf := st.buf, apo := false, pending := true }
  else
    if st.buf.isEmpty then
      { tokens := st.tokens, buf := [], apo := false, pending := false }
    else
      { tokens := st.tokens ++ [st.buf], buf := [], apo := false, pending := false }

/-- Flush the last buffered token at end of input. -/
def tok_finish (st : TokState) : List (List Char) :=
  if st.buf.isEmpty then st.tokens else st.tokens ++ [st.buf]

/-- `re.findall(r"\b\w+'\w+|\w+\b", s)` for a list of (already lowercased)
characters. -/
def tokenize_chars (cs : List Char) : List (List Char) :=
  tok_finish (cs.foldl tok_step ⟨[], [], false, false⟩)

/-- `str.lower` per character; `Char.toLower` is exactly Python's lowering on
the ASCII range this embedding targets. -/
def lower_char (c : Char) : Char := c.toLower

/-- A whole string lowered. -/
def lower_string (s : String) : String := String.mk (s.data.map lower_char)

/-- `" ".join(text_data)`, as a character list. -/
def join_space : List String → List Char
  | [] => []
  | [s] => s.data
  | s :: s2 :: rest => s.data ++ ' ' :: join_space (s2 :: rest)

/-- `" ".join(text_data).lower()`, as a character list. -/
def joined_lower (text_data : List String) : List Char :=
  (join_space text_data).map lower_char

/-- No apostrophe occurs in the word. -/
def apostrophe_free (w : List Char) : Bool := w.all (fun c => c ≠ '\'')

/-- The shape of every token the scanner can emit: a nonempty apostrophe-free
run, or two such runs joined by a single apostrophe. -/
def token_shape (w : List Char) : Prop :=
  (w ≠ [] ∧ apostrophe_free w = true)
  ∨ ∃ w1 w2, w1 ≠ [] ∧ w2 ≠ [] ∧ apostrophe_free w1 = true
      ∧ apostrophe_free w2 = true ∧ w = w1 ++ '\'' :: w2

/-- Shape of the scanner buffer, depending on whether it already holds its
apostrophe. -/
def buf_ok (st : TokState) : Prop :=
  (st.apo = true →
    ∃ w1 w2, w1 ≠ [] ∧ w2 ≠ [] ∧ apostrophe_free w1 = true
      ∧ apostrophe_free w2 = true ∧ st.buf = w1 ++ '\'' :: w2)
  ∧ (st.apo = false →
    st.buf = [] ∨ (st.buf ≠ [] ∧ apostrophe_free st.buf = true))

/-- Scanner invariant: all emitted tokens are well-shaped, the buffer is
well-shaped, and a pending apostrophe only follows a nonempty apostrophe-free
buffer. -/
def st_inv (st : TokState) : Prop :=
  (∀ t ∈ st.tokens, token_shape t) ∧ buf_ok st
    ∧ (st.pending = true → st.buf ≠ [] ∧ st.apo = false)

/-- `re.sub(r"'s$", "", word)`: drop a final apostrophe-s. -/
def strip_possessive (w : List Char) : List Char :=
  match w.reverse with
  | c1 :: c2 :: r => if c1 = 's' ∧ c2 = '\'' then r.reverse else w
  | _ => w

/-- The stop-word set of `get_top_words`, verbatim. -/
def STOP_WORDS : List String :=
  ["i", "me", "my", "myself", "we", "our", "ours", "ourselves", "you", "your",
   "yours", "yourself", "yourselves", "he", "him", "his", "himself", "she",
   "her", "hers", "herself", "it", "its", "itself", "they", "them", "their",
   "theirs", "themselves", "what", "which", "who", "whom", "this", "that",
   "these", "those", "am", "is", "are", "was", "were", "be", "been", "being",
   "have", "has", "had", "having", "do", "does", "did", "doing", "a", "an",
   "the", "and", "but", "if", "or", "because", "as", "until", "while", "of",
   "at", "by", "for", "with", "about", "against", "between", "into", "through",
   "during", "before", "after", "above", "below", "to", "from", "up", "down",
   "in", "out", "on", "off", "over", "under", "again", "further", "then",
   "once", "here", "there", "when", "where", "why", "how", "all", "any",
   "both", "each", "few", "more", "most", "other", "some", "such", "no",
   "nor", "not", "only", "own", "same", "so", "than", "too", "very", "can",
   "will", "just", "now", "should", "would", "could", "might", "must",
   "shall", "may", "also", "still", "yet", "ever", "never"]

/-- `word in stop_words`. -/
def is_stop_word (w : List Char) : Bool := STOP_WORDS.contains (String.mk w)

/-- `word.isdigit()` for ASCII text: nonempty and all digits. -/
def digits_only (w : List Char) : Bool := !w.isEmpty && w.all Char.isDigit

/-- The token stream actually counted by `get_top_words`: tokenize the
lowercased joined text, drop bare "s" tokens, strip possessive suffixes, then
drop stop words and purely numeric tokens. -/
def filtered_words (text_data : List String) : List (List Char) :=
  ((((tokenize_chars (joined_lower text_data)).filter
      (fun w => !(w == ['s']))).map strip_possessive).filter
    (fun w => !is_stop_word w && !digits_only w))

/-- Keep the first occurrence of every word, skipping words already seen. -/
def dedup_first (seen : List (List Char)) : List (List Char) → List (List Char)
  | [] => []
  | w :: ws =>
    if seen.contains w then dedup_first seen ws
    else w :: dedup_first (seen ++ [w]) ws

/-- Distinct words in first-encountered order: the iteration order of the
`Counter` (Python dicts preserve first-insertion order). -/
def first_occurrences (ws : List (List Char)) : List (List Char) :=
  dedup_first [] ws

/-- The position of the first occurrence of `w` in a word stream. -/
def first_idx (w : List Char) : List (List Char) → Nat
  | [] => 0
  | v :: vs => if v == w then 0 else first_idx w vs + 1

/-- The comparison `Counter.most_common` sorts by: descending count.  Python's
sort is stable, so on a list in first-insertion order it coincides with
insertion sort under this non-strict order. -/
def count_ge (a b : List Char × Nat) : Prop := b.2 ≤ a.2

instance : DecidableRel count_ge := fun a b => Nat.decLe b.2 a.2

/-- `Counter(ws).most_common(n)`: pair each distinct word (in first-insertion
order) with its count, stable-sort by descending count, take `n`. -/
def most_common (ws : List (List Char)) (n : Nat) : List (List Char × Nat) :=
  (((first_occurrences ws).map (fun w => (w, ws.count w))).insertionSort count_ge).take n

/-- One entry of the returned top-words list. -/
structure WordEntry where
  word : String
  count : Nat
deriving DecidableEq, Repr

/-- `NewsScraper.get_top_words` (lines 307-334). -/
def get_top_words (include_top_words : Bool) (text_data : List String) : List WordEntry :=
  if !include_top_words then []
  else (most_common (filtered_words text_data) 10).map
    (fun p => { word := String.mk p.1, count := p.2 })

/-! ### Articles and content fetching (`fetch_article_content`, C7) -/

/-- The item descriptor built by `get_news_list`. -/
structure Article where
  title : String
  description : String
  date : String
  link : String
deriving DecidableEq, Repr

/-- A successfully fetched article: the descriptor enriched with the extracted
content blocks and, when configured, the top-words summary. -/
structure EnrichedArticle where
  title : String
  description : String
  date : String
  link : String
  content : List String
  top_words : Option (List WordEntry)
deriving DecidableEq, Repr

/-- What the HTML selectors find in a response body: the optional
`div.news-header__lead` element text and the `div.text-block p` texts. -/
structure ParsedDoc where
  header_lead : Option String
  text_blocks : List String

/-- One content request as the fetcher sees it: either some exception from
`session.get`/`raise_for_status` or the parsed document. -/
inductive HttpOutcome where
  | failure : HttpOutcome
  | success : ParsedDoc → HttpOutcome

/-- `str.strip()`: drop leading and trailing whitespace. -/
def strip_text (s : String) : String :=
  String.mk
    (((s.data.dropWhile Char.isWhitespace).reverse.dropWhile
        Char.isWhitespace).reverse)

/-- The `contents` list built at lines 353-359: the stripped lead (if the
selector matched) followed by the stripped paragraph texts. -/
def extract_contents (d : ParsedDoc) : List String :=
  (match d.header_lead with
   | some s => [strip_text s]
   | none => []) ++ d.text_blocks.map strip_text

/-- `NewsScraper.fetch_article_content` (lines 337-376), as a function of the
transport outcome: any request error is re-raised; a success with zero
extracted blocks raises `ValueError("No content found in article")`; otherwise
the enriched article is returned. -/
def fetch_article_content (include_top_words : Bool) (a : Article)
    (r : HttpOutcome) : FetchResult EnrichedArticle :=
  match r with
  | .failure => .err ("Network error while fetching " ++ a.link)
  | .success d =>
    let contents := extract_contents d
    if contents.isEmpty then .err "No content found in article"
    else .ok { title := a.title, description := a.description, date := a.date,
               link := a.link, content := contents,
               top_words := if include_top_words then
                   some (get_top_words include_top_words contents)
                 else none }

/-! ### Listing (`get_news_list`, C8) -/

/-- One element of the remote `newsList` array. -/
structure RawListingItem where
  title : String
  lead : String
  date : Int
  link : String

/-- Line 412: the locator is built as `f"https://tass.com{item['link']}"`,
i.e. the fixed origin is prepended unconditionally. -/
def qualify_link (link : String) : String := "https://tass.com" ++ link

/-- Models `str(datetime.datetime.fromtimestamp(item["date"]))`: some
injective rendering of the epoch timestamp.  No claim depends on its form. -/
def format_timestamp (n : Int) : String := toString n

/-- The descriptor list `get_news_list` returns for a well-formed response. -/
def get_news_list_items (items : List RawListingItem) : List Article :=
  items.map (fun it =>
    { title := it.title, description := it.lead,
      date := format_timestamp it.date, link := qualify_link it.link })

/-- The host component of an URL assumed to start with the 8 characters of
`https://`: everything up to the next slash. -/
def host_part (s : String) : List Char :=
  (s.data.drop 8).takeWhile (fun c => c ≠ '/')

/-- Follows the spec's words: an absolute, directly fetchable address for this
service — `https://` scheme, and a nonempty host equal to `tass.com` (the
program talks to no other host and uses no port). -/
def is_absolute_fetchable (s : String) : Bool :=
  decide (s.data.take 8 = "https://".data) && !(host_part s).isEmpty
    && decide (host_part s = "tass.com".data)

/-- A relative link as the listing endpoint returns it: a path starting at the
site root. -/
def is_path_link (s : String) : Bool :=
  match s.data with
  | '/' :: _ => true
  | _ => false

/-! ### Output artifacts (`save_to_csv` / `process_category`, C10) -/

/-- The flattened dict built for one article in `save_to_csv` (insertion-order
association list). -/
def flatten_article (include_top_words : Bool) (a : EnrichedArticle) :
    List (String × String) :=
  [("title", a.title), ("description", a.description), ("date", a.date),
   ("link", a.link), ("content", " ".intercalate a.content)]
  ++ (if include_top_words then
        match a.top_words with
        | some tws =>
          (tws.enum).foldr (fun p acc =>
            ("top_word_" ++ toString (p.1 + 1), p.2.word)
            :: ("top_word_" ++ toString (p.1 + 1) ++ "_count", toString p.2.count)
            :: acc) []
        | none => []
      else [])

/-- One output artifact on disk. -/
inductive OutputArtifact where
  | jsonFile : List EnrichedArticle → OutputArtifact
  | csvFile : List (List (String × String)) → OutputArtifact
deriving DecidableEq, Repr

/-- `NewsScraper.save_to_csv` (lines 425-450) as a filesystem effect: with an
empty article list it returns before opening the file, so no artifact exists;
otherwise the file holds the flattened rows. -/
def save_to_csv (include_top_words : Bool) (articles : List EnrichedArticle) :
    Option OutputArtifact :=
  if articles.isEmpty then none
  else some (.csvFile (articles.map (flatten_article include_top_words)))

/-- The artifact `process_category` leaves for a category (lines 474-481):
CSV via `save_to_csv`, JSON via an unconditional `json.dump`. -/
def category_output (use_csv include_top_words : Bool)
    (processed : List EnrichedArticle) : Option OutputArtifact :=
  if use_csv then save_to_csv include_top_words processed
  else some (.jsonFile processed)

/-! ### Program-order event traces (C3, C6) -/

/-- Externally visible events of one program run, in program order. -/
inductive Ev where
  | mkdirOutputDir : Ev
  | mkdirLogsDir : Ev
  | openLogFile : Ev
  | versionFetch : Ev
  | configError : Ev
  | listingRequest (category : String) : Ev
  | sleepDelay : Ev
  | contentRequest : Ev
  | writeOutput (category : String) : Ev
  | invalidCategory (category : String) : Ev
deriving DecidableEq, Repr

/-- Filesystem or network events. -/
def io_event : Ev → Bool
  | .mkdirOutputDir => true
  | .mkdirLogsDir => true
  | .openLogFile => true
  | .versionFetch => true
  | .listingRequest _ => true
  | .contentRequest => true
  | .writeOutput _ => true
  | _ => false

/-- Events of `process_category` for one recognized category: the listing POST;
if it succeeds, per item a politeness sleep and the content GET, then the
output write. -/
def category_trace (c : String) (cf : CategoryFetch) : List Ev :=
  match cf with
  | .listErr => [Ev.listingRequest c]
  | .listOk rs =>
    Ev.listingRequest c
      :: (rs.foldr (fun _ acc => Ev.sleepDelay :: Ev.contentRequest :: acc)
            [Ev.writeOutput c])

/-- Events of the category loop in `run`. -/
def run_trace (world : String → CategoryFetch) (cats : List String) : List Ev :=
  cats.foldr (fun c acc =>
    (if recognized_category c then category_trace c (world c)
     else [Ev.invalidCategory c]) ++ acc) []

/-- Events of `NewsScraper(config)` followed by `run()`, in program order:
`__init__` creates the output directory, the logs directory and the log file
and builds the `UserAgentRotator` (whose constructor issues the Chrome and
Firefox version fetches); only then does `run()` call `config.validate()`,
which raises before any category is processed when the config is invalid. -/
def scraper_main_trace (cfg : NewsScraperConfig)
    (world : String → CategoryFetch) : List Ev :=
  [Ev.mkdirOutputDir, Ev.mkdirLogsDir, Ev.openLogFile, Ev.versionFetch,
   Ev.versionFetch]
    ++ (if cfg.validate_ok then run_trace world cfg.categories
        else [Ev.configError])

/-- Event trace of one `fetch_article_content` call up to response parsing:
the headers dict — whose construction requests the identity from the rotator —
is built first, then the politeness sleep, then the single `session.get`
inside which the transport adapter makes `1 + retries` attempts. -/
inductive FetchEv where
  | identityRequest : FetchEv
  | headersBuilt : FetchEv
  | sleepDelay : FetchEv
  | httpAttempt : FetchEv
  | parsed : FetchEv
deriving DecidableEq, Repr

/-- The trace itself, parameterized by how many transport-level retries the
adapter performed inside the one `session.get` call. -/
def fetch_article_trace (retries : Nat) : List FetchEv :=
  [FetchEv.identityRequest, FetchEv.headersBuilt, FetchEv.sleepDelay]
    ++ List.replicate (retries + 1) FetchEv.httpAttempt ++ [FetchEv.parsed]

/-! ### Concrete fixtures used by witnesses and counterexamples -/

/-- An invalid configuration: `headlines_per_category = 0`. -/
def cfg0 : NewsScraperConfig :=
  { headlines_per_category := 0, categories := ["politics"], max_workers := 2,
    output_dir := "news_data", include_top_words := false, min_delay := 1/5,
    max_delay := 1, max_retries := 3, use_csv := false }

/-- A world in which every listing succeeds with no items. -/
def world0 : String → CategoryFetch := fun _ => CategoryFetch.listOk []

/-- A concrete descriptor. -/
def art0 : Article :=
  { title := "t", description := "d", date := "2024-01-01 00:00:00",
    link := "https://tass.com/politics/1" }

/-- A concrete parsed response with a lead and one paragraph. -/
def doc0 : ParsedDoc := { header_lead := some "Lead", text_blocks := ["para one"] }

/-- A concrete enriched article. -/
def enriched0 : EnrichedArticle :=
  { title := "t", description := "d", date := "2024-01-01 00:00:00",
    link := "https://tass.com/politics/1", content := ["Lead", "para one"],
    top_words := none }

end TassScraper

namespace TassScraper

/-! ## Helper lemmas -/

@[simp] theorem FetchResult.isErr_ok {α : Type} (a : α) :
    (FetchResult.ok a).isErr = false := rfl

@[simp] theorem FetchResult.isErr_err {α : Type} (m : String) :
    (FetchResult.err m : FetchResult α).isErr = true := rfl

@[simp] theorem FetchResult.okPart_ok {α : Type} (a : α) :
    (FetchResult.ok a).okPart = some a := rfl

@[simp] theorem FetchResult.okPart_err {α : Type} (m : String) :
    (FetchResult.err m : FetchResult α).okPart = none := rfl

theorem collect_loop_spec {α : Type} (rs : List (FetchResult α)) (acc : List α × Nat) :
    collect_loop acc rs =
      (acc.1 ++ rs.filterMap FetchResult.okPart,
       acc.2 + rs.countP (fun r => r.isErr)) := by
  induction rs generalizing acc with
  | nil => simp [collect_loop]
  | cons r rs ih =>
    cases r with
    | ok a =>
      simp only [collect_loop, List.foldl_cons] at *
      rw [ih]
      simp [List.filterMap_cons, List.countP_cons]
    | err m =>
      simp only [collect_loop, List.foldl_cons] at *
      rw [ih]
      simp [List.filterMap_cons, List.countP_cons]
      omega

theorem process_category_outcomes_spec {α : Type} (rs : List (FetchResult α)) :
    process_category_outcomes rs =
      (rs.filterMap FetchResult.okPart, rs.countP (fun r => r.isErr)) := by
  simpa using collect_loop_spec rs ([], 0)

theorem filterMap_okPart_set_err {α : Type} (rs : List (FetchResult α)) (j : Nat)
    (e : String) (hj : j < rs.length) :
    (rs.set j (FetchResult.err e)).filterMap FetchResult.okPart =
      (rs.eraseIdx j).filterMap FetchResult.okPart := by
  induction rs generalizing j with
  | nil => simp at hj
  | cons r rs ih =>
    cases j with
    | zero =>
      simp [List.filterMap_cons]
    | succ j =>
      have hj' : j < rs.length := by simpa using hj
      cases r with
      | ok a => simp [List.filterMap_cons, ih j hj']
      | err m => simp [List.filterMap_cons, ih j hj']

theorem append_events_map_fst {α : Type} (tasks : List (α × Nat)) (clock : Nat) :
    (append_events tasks clock).map Prod.fst = tasks.map Prod.fst := by
  induction tasks generalizing clock with
  | nil => simp [append_events]
  | cons t rest ih =>
    obtain ⟨a, tm⟩ := t
    simp [append_events, ih]

theorem run_step_or (world : String → CategoryFetch) (flag : Bool) (c : String) :
    run_step world flag c =
      (flag || (!recognized_category c || category_failed (world c))) := by
  unfold run_step
  cases h : recognized_category c <;> simp [h]

theorem length_filterMap_add_countP {α : Type} (rs : List (FetchResult α)) :
    (rs.filterMap FetchResult.okPart).length + rs.countP (fun r => r.isErr) = rs.length := by
  induction rs with
  | nil => simp
  | cons r rs ih =>
    cases r with
    | ok a =>
      simp only [List.filterMap_cons, FetchResult.okPart_ok, List.countP_cons,
        FetchResult.isErr_ok, List.length_cons, Bool.false_eq_true, if_false]
      omega
    | err m =>
      simp only [List.filterMap_cons, FetchResult.okPart_err, List.countP_cons,
        FetchResult.isErr_err, List.length_cons]
      simp
      omega

theorem run_flag_any (world : String → CategoryFetch) (cats : List String) :
    run_flag world cats =
      cats.any (fun c => !recognized_category c || category_failed (world c)) := by
  suffices h : ∀ b, cats.foldl (run_step world) b =
      (b || cats.any (fun c => !recognized_category c || category_failed (world c))) by
    simpa [run_flag] using h false
  induction cats with
  | nil => intro b; simp
  | cons c cats ih =>
    intro b
    simp only [List.foldl_cons, List.any_cons, run_step_or, ih, Bool.or_assoc]

theorem min_usage_le_mem (l : List Nat) (x : Nat) (hx : x ∈ l) :
    min_usage l ≤ x := by
  induction l with
  | nil => simp at hx
  | cons c cs ih =>
    cases cs with
    | nil =>
      simp at hx
      simp [min_usage, hx]
    | cons c2 cs2 =>
      rcases List.mem_cons.mp hx with h | h
      · subst h
        simp only [min_usage]
        exact Nat.min_le_left _ _
      · simp only [min_usage]
        exact le_trans (Nat.min_le_right _ _) (ih h)

theorem le_min_usage (l : List Nat) (a : Nat) (hne : l ≠ [])
    (h : ∀ x ∈ l, a ≤ x) : a ≤ min_usage l := by
  induction l with
  | nil => exact absurd rfl hne
  | cons c cs ih =>
    cases cs with
    | nil =>
      simp only [min_usage]
      exact h c (by simp)
    | cons c2 cs2 =>
      have h1 := h c (by simp)
      have h2 : a ≤ min_usage (c2 :: cs2) :=
        ih (by simp) (fun x hx => h x (by simp [hx]))
      simp only [min_usage]
      exact Nat.le_min.mpr ⟨h1, h2⟩

theorem max_usage_le (l : List Nat) (b : Nat) (h : ∀ x ∈ l, x ≤ b) :
    max_usage l ≤ b := by
  induction l with
  | nil => simp [max_usage]
  | cons c cs ih =>
    cases cs with
    | nil =>
      simp only [max_usage]
      exact h c (by simp)
    | cons c2 cs2 =>
      have h1 := h c (by simp)
      have h2 : max_usage (c2 :: cs2) ≤ b :=
        ih (fun x hx => h x (by simp [hx]))
      simp only [max_usage]
      exact Nat.max_le.mpr ⟨h1, h2⟩

theorem rotator_step_ne_nil (l : List Nat) (i : Nat) (hne : l ≠ []) :
    rotator_step l i ≠ [] := by
  unfold rotator_step
  intro hcon
  have hlen := congrArg List.length hcon
  simp at hlen
  exact hne hlen

theorem usage_inv_step (l : List Nat) (i : Nat) (hne : l ≠ [])
    (hv : valid_choice l i = true) (hinv : usage_inv l) :
    usage_inv (rotator_step l i) := by
  unfold valid_choice at hv
  simp only [Bool.and_eq_true, decide_eq_true_eq] at hv
  obtain ⟨hi, hmin⟩ := hv
  intro x hx
  have hx' : x ∈ l ∨ x = l.getD i 0 + 1 := List.mem_or_eq_of_mem_set hx
  have hxle : x ≤ min_usage l + 1 := by
    rcases hx' with h | h
    · exact hinv x h
    · rw [h, hmin]
  have hge : ∀ y ∈ rotator_step l i, min_usage l ≤ y := by
    intro y hy
    rcases List.mem_or_eq_of_mem_set hy with h | h
    · exact min_usage_le_mem l y h
    · rw [h, hmin]; omega
  have hmle : min_usage l ≤ min_usage (rotator_step l i) :=
    le_min_usage _ _ (rotator_step_ne_nil l i hne) hge
  omega

theorem usage_inv_run (l : List Nat) (choices : List Nat) (hne : l ≠ [])
    (hv : valid_run l choices = true) (hinv : usage_inv l) :
    usage_inv (rotator_run l choices) := by
  induction choices generalizing l with
  | nil => simpa [rotator_run] using hinv
  | cons i is ih =>
    simp only [valid_run, Bool.and_eq_true] at hv
    exact ih (rotator_step l i) (rotator_step_ne_nil l i hne) hv.2
      (usage_inv_step l i hne hv.1 hinv)

theorem word_char_ne_apostrophe (c : Char) (h : word_char c = true) :
    c ≠ '\'' := by
  intro hc
  subst hc
  exact absurd h (by decide)

theorem apostrophe_free_not_mem (w : List Char) (h : apostrophe_free w = true) :
    '\'' ∉ w := by
  intro hm
  have := List.all_eq_true.mp h _ hm
  simp at this

theorem strip_eq_self_of_not (w : List Char) (c1 c2 : Char) (r : List Char)
    (hr : w.reverse = c1 :: c2 :: r) (hnot : ¬(c1 = 's' ∧ c2 = '\'')) :
    strip_possessive w = w := by
  unfold strip_possessive
  rw [hr]
  exact if_neg hnot

theorem strip_eq_of_poss (w : List Char) (r : List Char)
    (hr : w.reverse = 's' :: '\'' :: r) :
    strip_possessive w = r.reverse := by
  unfold strip_possessive
  rw [hr]
  exact if_pos ⟨rfl, rfl⟩

theorem strip_possessive_of_free (w : List Char)
    (h : apostrophe_free w = true) : strip_possessive w = w := by
  cases hr : w.reverse with
  | nil => unfold strip_possessive; rw [hr]
  | cons c1 r1 =>
    cases r1 with
    | nil => unfold strip_possessive; rw [hr]
    | cons c2 r =>
      have hc2 : c2 ∈ w := by
        rw [← List.mem_reverse, hr]
        simp
      refine strip_eq_self_of_not w c1 c2 r hr (fun hif => ?_)
      exact absurd (hif.2 ▸ hc2) (apostrophe_free_not_mem w h)

theorem strip_possessive_idem (w : List Char) (h : token_shape w) :
    strip_possessive (strip_possessive w) = strip_possessive w := by
  rcases h with ⟨hne, hfree⟩ | ⟨w1, w2, h1ne, h2ne, h1f, h2f, rfl⟩
  · rw [strip_possessive_of_free w hfree, strip_possessive_of_free w hfree]
  · have hrev : (w1 ++ '\'' :: w2).reverse = w2.reverse ++ '\'' :: w1.reverse := by
      simp
    by_cases h2s : w2 = ['s']
    · subst h2s
      have hstrip : strip_possessive (w1 ++ '\'' :: ['s']) = w1 := by
        rw [strip_eq_of_poss _ w1.reverse (by simp)]
        simp
      rw [hstrip, strip_possessive_of_free w1 h1f]
    · have hstay : strip_possessive (w1 ++ '\'' :: w2) = w1 ++ '\'' :: w2 := by
        cases hw2 : w2.reverse with
        | nil => exact absurd (by simpa using congrArg List.reverse hw2) h2ne
        | cons c2 r2 =>
          have hrev2 : (w1 ++ '\'' :: w2).reverse =
              c2 :: (r2 ++ '\'' :: w1.reverse) := by
            rw [hrev, hw2]
            simp
          cases r2 with
          | nil =>
            have hw2' : w2 = [c2] := by
              have := congrArg List.reverse hw2
              simpa using this
            refine strip_eq_self_of_not _ c2 '\'' w1.reverse
              (by simpa using hrev2) (fun hif => ?_)
            exact h2s (hw2'.trans (by rw [hif.1]))
          | cons c3 r3 =>
            have hc3 : c3 ∈ w2 := by
              rw [← List.mem_reverse, hw2]
              simp
            refine strip_eq_self_of_not _ c2 c3 (r3 ++ '\'' :: w1.reverse)
              (by simpa using hrev2) (fun hif => ?_)
            exact absurd (hif.2 ▸ hc3) (apostrophe_free_not_mem w2 h2f)
      rw [hstay, hstay]

theorem apostrophe_free_append (a b : List Char) :
    apostrophe_free (a ++ b) = (apostrophe_free a && apostrophe_free b) := by
  simp [apostrophe_free]

theorem apostrophe_free_singleton (c : Char) (h : word_char c = true) :
    apostrophe_free [c] = true := by
  simp [apostrophe_free]
  exact word_char_ne_apostrophe c h

theorem buf_shape_of_ok (st : TokState) (hb : buf_ok st) (hne : st.buf ≠ []) :
    token_shape st.buf := by
  cases ha : st.apo with
  | true =>
    obtain ⟨w1, w2, h1, h2, f1, f2, he⟩ := hb.1 ha
    exact Or.inr ⟨w1, w2, h1, h2, f1, f2, he⟩
  | false =>
    rcases hb.2 ha with h | h
    · exact absurd h hne
    · exact Or.inl h

theorem st_inv_step (st : TokState) (c : Char) (h : st_inv st) :
    st_inv (tok_step st c) := by
  obtain ⟨htoks, hbuf, hpend⟩ := h
  unfold tok_step
  by_cases hwc : word_char c
  · rw [if_pos hwc]
    by_cases hp : st.pending
    · rw [if_pos hp]
      obtain ⟨hbne, hapo⟩ := hpend hp
      have hfree : apostrophe_free st.buf = true := by
        rcases hbuf.2 hapo with h | h
        · exact absurd h hbne
        · exact h.2
      refine ⟨htoks, ⟨fun _ => ?_, fun hcon => by simp at hcon⟩,
        fun hcon => by simp at hcon⟩
      exact ⟨st.buf, [c], hbne, by simp, hfree,
        apostrophe_free_singleton c hwc, rfl⟩
    · rw [if_neg hp]
      refine ⟨htoks, ⟨fun ha => ?_, fun ha => ?_⟩, fun hcon => by simp at hcon⟩
      · obtain ⟨w1, w2, h1, h2, f1, f2, he⟩ := hbuf.1 ha
        refine ⟨w1, w2 ++ [c], h1, by simp, f1, ?_, ?_⟩
        · rw [apostrophe_free_append, f2, apostrophe_free_singleton c hwc]
          rfl
        · rw [he]
          simp
      · rcases hbuf.2 ha with hnil | ⟨hne, hfree⟩
        · refine Or.inr ⟨by simp, ?_⟩
          rw [hnil]
          simpa using apostrophe_free_singleton c hwc
        · refine Or.inr ⟨by simp, ?_⟩
          rw [apostrophe_free_append, hfree, apostrophe_free_singleton c hwc]
          rfl
  · rw [if_neg hwc]
    by_cases hc : c = '\''
    · rw [if_pos hc]
      by_cases hbe : st.buf.isEmpty
      · rw [if_pos hbe]
        exact ⟨htoks, ⟨fun hcon => by simp at hcon, fun _ => Or.inl rfl⟩,
          fun hcon => by simp at hcon⟩
      · rw [if_neg hbe]
        have hbne : st.buf ≠ [] := by simpa [List.isEmpty_iff] using hbe
        by_cases hflush : st.apo || st.pending
        · rw [if_pos hflush]
          refine ⟨?_, ⟨fun hcon => by simp at hcon, fun _ => Or.inl rfl⟩,
            fun hcon => by simp at hcon⟩
          intro t ht
          rcases List.mem_append.mp ht with ht | ht
          · exact htoks t ht
          · have : t = st.buf := by simpa using ht
            rw [this]
            exact buf_shape_of_ok st hbuf hbne
        · rw [if_neg hflush]
          have hapo : st.apo = false := by
            have h2 : (st.apo || st.pending) = false := by simpa using hflush
            exact (Bool.or_eq_false_iff.mp h2).1
          refine ⟨htoks, ⟨fun hcon => by simp at hcon, fun _ => hbuf.2 hapo⟩,
            fun _ => ⟨hbne, rfl⟩⟩
    · rw [if_neg hc]
      by_cases hbe : st.buf.isEmpty
      · rw [if_pos hbe]
        exact ⟨htoks, ⟨fun hcon => by simp at hcon, fun _ => Or.inl rfl⟩,
          fun hcon => by simp at hcon⟩
      · rw [if_neg hbe]
        have hbne : st.buf ≠ [] := by simpa [List.isEmpty_iff] using hbe
        refine ⟨?_, ⟨fun hcon => by simp at hcon, fun _ => Or.inl rfl⟩,
          fun hcon => by simp at hcon⟩
        intro t ht
        rcases List.mem_append.mp ht with ht | ht
        · exact htoks t ht
        · have : t = st.buf := by simpa using ht
          rw [this]
          exact buf_shape_of_ok st hbuf hbne

theorem st_inv_foldl (cs : List Char) (st : TokState) (h : st_inv st) :
    st_inv (cs.foldl tok_step st) := by
  induction cs generalizing st with
  | nil => simpa using h
  | cons c cs ih => exact ih _ (st_inv_step st c h)

theorem tokenize_chars_shape (cs : List Char) :
    ∀ t ∈ tokenize_chars cs, token_shape t := by
  have hinv : st_inv (cs.foldl tok_step ⟨[], [], false, false⟩) :=
    st_inv_foldl cs _
      ⟨fun t ht => by simp at ht,
       ⟨fun hcon => by simp at hcon, fun _ => Or.inl rfl⟩,
       fun hcon => by simp at hcon⟩
  obtain ⟨htoks, hbuf, _⟩ := hinv
  intro t ht
  unfold tokenize_chars tok_finish at ht
  by_cases hbe : (cs.foldl tok_step ⟨[], [], false, false⟩).buf.isEmpty
  · rw [if_pos hbe] at ht
    exact htoks t ht
  · rw [if_neg hbe] at ht
    have hbne : (cs.foldl tok_step ⟨[], [], false, false⟩).buf ≠ [] := by
      simpa [List.isEmpty_iff] using hbe
    rcases List.mem_append.mp ht with ht | ht
    · exact htoks t ht
    · have : t = (cs.foldl tok_step ⟨[], [], false, false⟩).buf := by
        simpa using ht
      rw [this]
      exact buf_shape_of_ok _ hbuf hbne

theorem mem_dedup_first (ws : List (List Char)) :
    ∀ seen u, u ∈ dedup_first seen ws → u ∈ ws ∧ u ∉ seen := by
  induction ws with
  | nil =>
    intro seen u h
    simp [dedup_first] at h
  | cons w ws ih =>
    intro seen u h
    unfold dedup_first at h
    by_cases hc : seen.contains w
    · rw [if_pos hc] at h
      obtain ⟨h1, h2⟩ := ih seen u h
      exact ⟨List.mem_cons_of_mem w h1, h2⟩
    · rw [if_neg hc] at h
      rcases List.mem_cons.mp h with rfl | h
      · refine ⟨List.mem_cons_self _ _, ?_⟩
        intro hmem
        exact hc (by simpa using hmem)
      · obtain ⟨h1, h2⟩ := ih (seen ++ [w]) u h
        exact ⟨List.mem_cons_of_mem w h1, fun hmem => h2 (by simp [hmem])⟩

theorem first_idx_cons_self (w : List Char) (vs : List (List Char)) :
    first_idx w (w :: vs) = 0 := by
  simp [first_idx]

theorem first_idx_cons_ne (w v : List Char) (vs : List (List Char))
    (h : v ≠ w) : first_idx w (v :: vs) = first_idx w vs + 1 := by
  simp [first_idx, h]

theorem pairwise_dedup_first (ws : List (List Char)) :
    ∀ seen, List.Pairwise (fun u v => first_idx u ws < first_idx v ws)
      (dedup_first seen ws) := by
  induction ws with
  | nil =>
    intro seen
    simp [dedup_first]
  | cons w rest ih =>
    intro seen
    unfold dedup_first
    by_cases hc : seen.contains w
    · rw [if_pos hc]
      refine (ih seen).imp_of_mem ?_
      intro a b ha hb hab
      have ha' := mem_dedup_first rest seen a ha
      have hb' := mem_dedup_first rest seen b hb
      have haw : a ≠ w := fun he => ha'.2 (he ▸ (by simpa using hc))
      have hbw : b ≠ w := fun he => hb'.2 (he ▸ (by simpa using hc))
      rw [first_idx_cons_ne a w rest (Ne.symm haw),
        first_idx_cons_ne b w rest (Ne.symm hbw)]
      omega
    · rw [if_neg hc]
      constructor
      · intro v hv
        have hv' := mem_dedup_first rest (seen ++ [w]) v hv
        have hvw : v ≠ w := fun he => hv'.2 (by simp [he])
        rw [first_idx_cons_self, first_idx_cons_ne v w rest (Ne.symm hvw)]
        omega
      · refine (ih (seen ++ [w])).imp_of_mem ?_
        intro a b ha hb hab
        have ha' := mem_dedup_first rest (seen ++ [w]) a ha
        have hb' := mem_dedup_first rest (seen ++ [w]) b hb
        have haw : a ≠ w := fun he => ha'.2 (by simp [he])
        have hbw : b ≠ w := fun he => hb'.2 (by simp [he])
        rw [first_idx_cons_ne a w rest (Ne.symm haw),
          first_idx_cons_ne b w rest (Ne.symm hbw)]
        omega

theorem pairwise_orderedInsert_stable
    (Q : List Char × Nat → List Char × Nat → Prop) (x : List Char × Nat)
    (s : List (List Char × Nat))
    (hs : List.Pairwise (fun a b => b.2 ≤ a.2 ∧ (a.2 = b.2 → Q a b)) s)
    (hq : ∀ y ∈ s, Q x y) :
    List.Pairwise (fun a b => b.2 ≤ a.2 ∧ (a.2 = b.2 → Q a b))
      (List.orderedInsert count_ge x s) := by
  induction s with
  | nil => simp
  | cons b t ih =>
    by_cases hcb : count_ge x b
    · rw [List.orderedInsert, if_pos hcb]
      constructor
      · intro z hz
        rcases List.mem_cons.mp hz with rfl | hz
        · exact ⟨hcb, fun _ => hq z (List.mem_cons_self _ _)⟩
        · have hbz := List.rel_of_pairwise_cons hs hz
          exact ⟨le_trans hbz.1 hcb, fun _ => hq z (List.mem_cons_of_mem b hz)⟩
      · exact hs
    · rw [List.orderedInsert, if_neg hcb]
      have hxb : x.2 < b.2 := Nat.lt_of_not_le hcb
      constructor
      · intro z hz
        rcases (List.mem_orderedInsert count_ge).mp hz with rfl | hz
        · exact ⟨Nat.le_of_lt hxb, fun he => absurd he (Nat.ne_of_gt hxb)⟩
        · exact List.rel_of_pairwise_cons hs hz
      · exact ih hs.of_cons (fun y hy => hq y (List.mem_cons_of_mem b hy))

theorem pairwise_insertionSort_stable
    (Q : List Char × Nat → List Char × Nat → Prop)
    (l : List (List Char × Nat)) (hl : List.Pairwise Q l) :
    List.Pairwise (fun a b => b.2 ≤ a.2 ∧ (a.2 = b.2 → Q a b))
      (List.insertionSort count_ge l) := by
  induction l with
  | nil => simp
  | cons x l ih =>
    rw [List.insertionSort]
    refine pairwise_orderedInsert_stable Q x _ (ih hl.of_cons) ?_
    intro y hy
    exact List.rel_of_pairwise_cons hl ((List.mem_insertionSort count_ge).mp hy)

theorem mem_filtered_words (text : List String) (w : List Char)
    (hw : w ∈ filtered_words text) :
    (∃ t ∈ tokenize_chars (joined_lower text), w = strip_possessive t)
    ∧ is_stop_word w = false ∧ digits_only w = false := by
  unfold filtered_words at hw
  obtain ⟨hmem, hpred⟩ := List.mem_filter.mp hw
  rcases List.mem_map.mp hmem with ⟨t, htmem, rfl⟩
  have ht' := (List.mem_filter.mp htmem).1
  simp only [Bool.and_eq_true, Bool.not_eq_true'] at hpred
  exact ⟨⟨t, ht', rfl⟩, hpred.1, hpred.2⟩

theorem mem_get_top_words (itw : Bool) (text : List String) (e : WordEntry)
    (he : e ∈ get_top_words itw text) :
    e.word.data ∈ filtered_words text := by
  unfold get_top_words at he
  cases itw with
  | false => simp at he
  | true =>
    simp only [Bool.not_true, Bool.false_eq_true, if_false] at he
    rcases List.mem_map.mp he with ⟨p, hp, rfl⟩
    have hp1 := List.mem_of_mem_take (by simpa [most_common] using hp)
    have hp2 := (List.mem_insertionSort count_ge).mp hp1
    rcases List.mem_map.mp hp2 with ⟨w, hw, rfl⟩
    exact (mem_dedup_first (filtered_words text) [] w hw).1

theorem map_lower_join_space (t : List String) :
    (join_space t).map lower_char = join_space (t.map lower_string) := by
  induction t with
  | nil => rfl
  | cons s rest ih =>
    cases rest with
    | nil => rfl
    | cons s2 rest2 =>
      show (s.data ++ ' ' :: join_space (s2 :: rest2)).map lower_char = _
      rw [List.map_append, List.map_cons, ih]
      rfl

theorem joined_lower_congr (t1 t2 : List String)
    (h : t1.map lower_string = t2.map lower_string) :
    joined_lower t1 = joined_lower t2 := by
  unfold joined_lower
  rw [map_lower_join_space, map_lower_join_space, h]

theorem get_top_words_congr (itw : Bool) (t1 t2 : List String)
    (h : joined_lower t1 = joined_lower t2) :
    get_top_words itw t1 = get_top_words itw t2 := by
  unfold get_top_words most_common filtered_words
  rw [h]

theorem get_top_words_pairwise (itw : Bool) (text : List String) :
    List.Pairwise
      (fun a b => b.count ≤ a.count ∧ (a.count = b.count →
        first_idx a.word.data (filtered_words text)
          < first_idx b.word.data (filtered_words text)))
      (get_top_words itw text) := by
  cases itw with
  | false => simp [get_top_words]
  | true =>
    unfold get_top_words
    simp only [Bool.not_true, Bool.false_eq_true, if_false]
    have hQ : List.Pairwise
        (fun p q : List Char × Nat =>
          first_idx p.1 (filtered_words text)
            < first_idx q.1 (filtered_words text))
        ((first_occurrences (filtered_words text)).map
          (fun w => (w, (filtered_words text).count w))) := by
      rw [List.pairwise_map]
      exact pairwise_dedup_first (filtered_words text) []
    have hS := pairwise_insertionSort_stable _ _ hQ
    have hTake := List.Pairwise.sublist (List.take_sublist 10 _) hS
    unfold most_common
    rw [List.pairwise_map]
    exact hTake.imp (fun hpq => ⟨hpq.1, hpq.2⟩)

end TassScraper

namespace TassScraper

/-! ## Claim theorems -/

/-- C1: for a listing of `M` item tasks, `process_category` produces exactly one
outcome per task — the collected successes are exactly the successful results
in order (no drop, no duplicate), the recorded failures are exactly the raised
tasks, successes + failures = M — and turning any single task into a failure
leaves the outcomes of the other `M - 1` tasks untouched. -/
theorem process_category_outcome_accounting {α : Type} (rs : List (FetchResult α))
    (j : Nat) (e : String) (hj : j < rs.length) :
    (process_category_outcomes rs).1.length + (process_category_outcomes rs).2 = rs.length
    ∧ (process_category_outcomes rs).1 = rs.filterMap FetchResult.okPart
    ∧ (process_category_outcomes rs).2 = rs.countP (fun r => r.isErr)
    ∧ (process_category_outcomes (rs.set j (FetchResult.err e))).1 =
        (rs.eraseIdx j).filterMap FetchResult.okPart
    ∧ (process_category_outcomes (rs.set j (FetchResult.err e))).1.length +
        (process_category_outcomes (rs.set j (FetchResult.err e))).2 = rs.length := by
  have hspec := process_category_outcomes_spec rs
  have hspec' := process_category_outcomes_spec (rs.set j (FetchResult.err e))
  refine ⟨?_, ?_, ?_, ?_, ?_⟩
  · rw [hspec]
    exact length_filterMap_add_countP rs
  · rw [hspec]
  · rw [hspec]
  · rw [hspec']
    exact filterMap_okPart_set_err rs j e hj
  · rw [hspec']
    dsimp only
    have hlen : (rs.set j (FetchResult.err e)).length = rs.length := by simp
    have h2 := length_filterMap_add_countP (rs.set j (FetchResult.err e))
    omega

/-- Witness for C1: three tasks, the middle one failing. -/
theorem process_category_outcome_accounting_witness :
    (process_category_outcomes
        [FetchResult.ok 1, FetchResult.err "boom", FetchResult.ok 2]).1.length
      + (process_category_outcomes
        [FetchResult.ok 1, FetchResult.err "boom", FetchResult.ok 2]).2 = 3 :=
  (process_category_outcome_accounting
    [FetchResult.ok 1, FetchResult.err "boom", FetchResult.ok 2] 1 "x"
    (by decide)).1

/-- C2: after the category loop, `run` reports overall success iff every
configured category was recognized and recorded no failure (listing or
per-item); and the shared `errors_occurred` flag is monotone — once true after
a prefix of the loop it remains true however the loop continues. -/
theorem run_success_iff_no_failure (world : String → CategoryFetch)
    (cats pre post : List String) (hpre : run_flag world pre = true) :
    (run_reports_success world cats = true ↔
      ∀ c ∈ cats, recognized_category c = true
        ∧ category_failed (world c) = false)
    ∧ run_flag world (pre ++ post) = true := by
  constructor
  · unfold run_reports_success
    rw [run_flag_any]
    simp only [Bool.not_eq_true', List.any_eq_false, Bool.or_eq_false_iff,
      Bool.not_eq_true]
    constructor
    · intro h c hc
      exact ⟨by simpa using (h c hc).1, (h c hc).2⟩
    · intro h c hc
      exact ⟨by simpa using (h c hc).1, (h c hc).2⟩
  · rw [run_flag_any] at hpre ⊢
    simp [List.any_append, hpre]

/-- Witness for C2: one clean category for the iff, a prefix with an
unrecognized category for monotonicity. -/
theorem run_success_iff_no_failure_witness :
    ((run_reports_success world0 ["politics"] = true ↔
      ∀ c ∈ ["politics"], recognized_category c = true
        ∧ category_failed (world0 c) = false)
    ∧ run_flag world0 (["bogus"] ++ []) = true) :=
  run_success_iff_no_failure world0 ["politics"] ["bogus"] [] (by decide)

/-- C3 (amended): for every invalid configuration the `ValueError` raised by
`validate()` precedes every request to the news service and every category
artifact write — but it does not precede all I/O: `__init__` has already
created the output directory, the logs directory and the log file and issued
the rotator's browser-version fetches before `run()` validates. -/
theorem config_error_before_scraping (cfg : NewsScraperConfig)
    (world : String → CategoryFetch) (h : cfg.validate_ok = false) :
    (∀ c, Ev.listingRequest c ∉ scraper_main_trace cfg world)
    ∧ Ev.contentRequest ∉ scraper_main_trace cfg world
    ∧ (∀ c, Ev.writeOutput c ∉ scraper_main_trace cfg world)
    ∧ Ev.configError ∈ scraper_main_trace cfg world
    ∧ (scraper_main_trace cfg world).getD 0 Ev.configError = Ev.mkdirOutputDir
    ∧ io_event Ev.mkdirOutputDir = true := by
  unfold scraper_main_trace
  rw [h]
  refine ⟨?_, ?_, ?_, ?_, rfl, rfl⟩
  · intro c; simp
  · simp
  · intro c; simp
  · simp

/-- Witness for C3 (amended) at the concrete invalid `cfg0`. -/
theorem config_error_before_scraping_witness :
    Ev.configError ∈ scraper_main_trace cfg0 world0 :=
  (config_error_before_scraping cfg0 world0 (by decide)).2.2.2.1

/-- C3 counterexample: for the invalid configuration `cfg0`
(`headlines_per_category = 0`) the very first event of the program trace is
the creation of the output directory — a filesystem I/O event — while the
configuration error only appears at index 5, after the directory and log-file
creation and the two version-fetch network requests.  The configuration error
is therefore not raised before any I/O. -/
theorem io_precedes_config_error :
    cfg0.validate_ok = false
    ∧ (scraper_main_trace cfg0 world0).getD 0 Ev.configError = Ev.mkdirOutputDir
    ∧ io_event Ev.mkdirOutputDir = true
    ∧ (scraper_main_trace cfg0 world0).getD 5 Ev.mkdirOutputDir = Ev.configError := by
  refine ⟨by decide, rfl, rfl, rfl⟩

/-- C5 (amended): within one category the outcomes are collected in submission
order — the loop iterates the future map in insertion order and blocks on each
future in turn — whatever the completion instants are. -/
theorem outcomes_collected_in_submission_order {α : Type}
    (tasks : List (α × Nat)) :
    collected_order tasks = tasks.map Prod.fst :=
  append_events_map_fst tasks 0

/-- C5 counterexample: the first submitted task finishes at instant 2, the
second at instant 1; the loop still collects the first submitted task first,
so the collection order is not the completion order. -/
theorem collection_order_ne_completion_order :
    collected_order [(0, 2), (1, 1)] ≠ completion_order [(0, 2), (1, 1)] := by
  decide

/-- C6 (amended): for every item fetch the politeness sleep happens exactly
once — regardless of how many transport-level retries occur inside the single
`session.get` — and strictly before the first HTTP attempt; but the identity
is requested from the rotator and the headers are built before the sleep, not
after it. -/
theorem fetch_delay_once_before_request (retries : Nat) :
    (fetch_article_trace retries).count FetchEv.sleepDelay = 1
    ∧ (fetch_article_trace retries).getD 0 FetchEv.parsed = FetchEv.identityRequest
    ∧ (fetch_article_trace retries).getD 1 FetchEv.parsed = FetchEv.headersBuilt
    ∧ (fetch_article_trace retries).getD 2 FetchEv.parsed = FetchEv.sleepDelay
    ∧ (∀ k, (fetch_article_trace retries).getD k FetchEv.parsed = FetchEv.httpAttempt
        → 2 < k) := by
  refine ⟨?_, rfl, rfl, rfl, ?_⟩
  · unfold fetch_article_trace
    simp [List.count_cons, List.count_append, List.count_replicate]
  · intro k hk
    match k with
    | 0 => simp [fetch_article_trace] at hk
    | 1 => simp [fetch_article_trace] at hk
    | 2 => simp [fetch_article_trace] at hk
    | (n + 3) => omega

/-- Witness for C6 (amended) at two transport retries; index 3 holds the first
HTTP attempt. -/
theorem fetch_delay_once_before_request_witness :
    (fetch_article_trace 2).count FetchEv.sleepDelay = 1 ∧ (2 : Nat) < 3 :=
  ⟨(fetch_delay_once_before_request 2).1,
   (fetch_delay_once_before_request 2).2.2.2.2 3 (by decide)⟩

/-- C6 counterexample: in the actual trace the identity request (index 0)
precedes the sleep (index 2), refuting "first sleeps, and only afterwards
requests an identity from the rotator and builds the headers". -/
theorem identity_requested_before_sleep :
    ¬ ((fetch_article_trace 0).indexOf FetchEv.sleepDelay
        < (fetch_article_trace 0).indexOf FetchEv.identityRequest) := by
  decide

/-- C7: a fetch that returns a success carries at least one content block; a
successful HTTP response from which zero blocks are extracted is reported as
the `ValueError` failure, and no fetch is both a success and a failure. -/
theorem fetch_success_has_content (itw : Bool) (a : Article) (r : HttpOutcome) :
    (∀ e, fetch_article_content itw a r = FetchResult.ok e → 1 ≤ e.content.length)
    ∧ (∀ d, r = HttpOutcome.success d → extract_contents d = [] →
        fetch_article_content itw a r = FetchResult.err "No content found in article")
    ∧ (∀ e m, fetch_article_content itw a r = FetchResult.ok e →
        fetch_article_content itw a r ≠ FetchResult.err m) := by
  refine ⟨?_, ?_, ?_⟩
  · intro e he
    cases r with
    | failure => simp [fetch_article_content] at he
    | success d =>
      by_cases hc : (extract_contents d).isEmpty
      · simp [fetch_article_content, hc] at he
      · simp only [fetch_article_content, hc, if_neg, Bool.false_eq_true,
          not_false_eq_true, if_false] at he
        have hnil : extract_contents d ≠ [] := by
          simpa [List.isEmpty_iff] using hc
        cases he
        simpa using List.length_pos.mpr hnil
  · intro d hd hempty
    subst hd
    simp [fetch_article_content, hempty]
  · intro e m hok
    rw [hok]
    simp

/-- Witness for C7 at a concrete successful fetch with a lead and one
paragraph. -/
theorem fetch_success_has_content_witness :
    1 ≤ (({ title := "t", description := "d", date := "2024-01-01 00:00:00",
            link := "https://tass.com/politics/1",
            content := ["Lead", "para one"],
            top_words := none } : EnrichedArticle)).content.length :=
  (fetch_success_has_content false art0 (HttpOutcome.success doc0)).1
    { title := "t", description := "d", date := "2024-01-01 00:00:00",
      link := "https://tass.com/politics/1", content := ["Lead", "para one"],
      top_words := none }
    (by decide)

/-- Helper for C8: prefixing the fixed origin onto a root path yields an
absolute address with host `tass.com`. -/
theorem qualify_path_link_fetchable (link : String)
    (h : is_path_link link = true) :
    is_absolute_fetchable (qualify_link link) = true := by
  have hd : ∃ rest, link.data = '/' :: rest := by
    unfold is_path_link at h
    cases hl : link.data with
    | nil => rw [hl] at h; simp at h
    | cons c rest =>
      rw [hl] at h
      cases c with
      | mk v hvalid =>
        by_cases hcv : (⟨v, hvalid⟩ : Char) = '/'
        · exact ⟨rest, by rw [hcv]⟩
        · simp [hcv] at h
  obtain ⟨rest, hrest⟩ := hd
  have hlit : ("https://tass.com" : String).data =
      ['h', 't', 't', 'p', 's', ':', '/', '/', 't', 'a', 's', 's', '.', 'c',
       'o', 'm'] := rfl
  unfold is_absolute_fetchable host_part qualify_link
  rw [String.data_append, hlit, hrest]
  simp [List.take_succ_cons, List.drop_succ_cons, List.takeWhile_cons]

/-- C8 (amended): every locator is the fixed origin prepended to the raw
`link`; for the path links the listing endpoint returns, the resulting
locator is an absolute, directly fetchable address.  (An already-absolute
`link` gets the origin prepended a second time and is not fetchable; see the
counterexample.) -/
theorem news_list_locators_absolute_for_paths (items : List RawListingItem)
    (h : ∀ it ∈ items, is_path_link it.link = true) :
    ∀ a ∈ get_news_list_items items, is_absolute_fetchable a.link = true := by
  intro a ha
  unfold get_news_list_items at ha
  rcases List.mem_map.mp ha with ⟨it, hit, rfl⟩
  exact qualify_path_link_fetchable it.link (h it hit)

/-- Witness for C8 (amended) at one concrete path link. -/
theorem news_list_locators_absolute_for_paths_witness :
    is_absolute_fetchable "https://tass.com/politics/1" = true :=
  news_list_locators_absolute_for_paths
    [{ title := "t", lead := "l", date := 0, link := "/politics/1" }]
    (by decide)
    { title := "t", description := "l", date := format_timestamp 0,
      link := qualify_link "/politics/1" }
    (by decide)

/-- C8 counterexample: an already-absolute `link` in the listing response gets
`https://tass.com` prepended again; the descriptor's locator is then not an
absolute fetchable address (its host component would be `tass.comhttps:`), so
already-absolute links do not remain valid. -/
theorem absolute_link_not_preserved :
    is_absolute_fetchable "https://tass.com/politics/1" = true
    ∧ (get_news_list_items
        [{ title := "t", lead := "l", date := 0,
           link := "https://tass.com/politics/1" }]).map (fun a => a.link)
      = ["https://tass.comhttps://tass.com/politics/1"]
    ∧ is_absolute_fetchable "https://tass.comhttps://tass.com/politics/1" = false := by
  refine ⟨by decide, rfl, by decide⟩

/-- C10: with CSV output selected and every item of the category failed,
`save_to_csv` returns before opening the file and no artifact is produced;
JSON mode instead writes an artifact holding the empty list; and a nonempty
article list does produce a CSV artifact with one row per article. -/
theorem csv_empty_category_writes_no_artifact (itw : Bool)
    (arts : List EnrichedArticle) (h : arts ≠ []) :
    category_output true itw [] = none
    ∧ category_output false itw [] = some (OutputArtifact.jsonFile [])
    ∧ category_output true itw arts
        = some (OutputArtifact.csvFile (arts.map (flatten_article itw))) := by
  refine ⟨rfl, rfl, ?_⟩
  simp [category_output, save_to_csv, List.isEmpty_iff, h]

/-- Witness for C10 at a singleton article list. -/
theorem csv_empty_category_writes_no_artifact_witness :
    category_output true false [] = none
    ∧ category_output false false [] = some (OutputArtifact.jsonFile [])
    ∧ category_output true false [enriched0]
        = some (OutputArtifact.csvFile ([enriched0].map (flatten_article false))) :=
  csv_empty_category_writes_no_artifact false [enriched0] (by simp)

/-- C4: starting from all-zero usage counters over a pool of `k` identities,
after any sequence of `get_next_user_agent` calls — each incrementing a
counter that was minimal at the time of the call — the maximum and minimum
usage counts differ by at most 1. -/
theorem rotator_usage_balanced (k : Nat) (choices : List Nat) (hk : 0 < k)
    (hv : valid_run (List.replicate k 0) choices = true) :
    max_usage (rotator_run (List.replicate k 0) choices)
      - min_usage (rotator_run (List.replicate k 0) choices) ≤ 1 := by
  have hne : (List.replicate k 0 : List Nat) ≠ [] := by
    intro hcon
    have := congrArg List.length hcon
    simp at this
    omega
  have hinv0 : usage_inv (List.replicate k 0) := by
    intro x hx
    have hx0 : x = 0 := List.eq_of_mem_replicate hx
    omega
  have hinv := usage_inv_run _ choices hne hv hinv0
  have hmax := max_usage_le (rotator_run (List.replicate k 0) choices)
    (min_usage (rotator_run (List.replicate k 0) choices) + 1) hinv
  omega

/-- Witness for C4: a pool of 3 identities and 5 least-used selections. -/
theorem rotator_usage_balanced_witness :
    max_usage (rotator_run (List.replicate 3 0) [0, 1, 2, 0, 2])
      - min_usage (rotator_run (List.replicate 3 0) [0, 1, 2, 0, 2]) ≤ 1 :=
  rotator_usage_balanced 3 [0, 1, 2, 0, 2] (by decide) (by decide)

/-- C9: for the input "The cat sat. The cat ran." (with "the" among the stop
words) the top entry is `{word := "cat", count := 2}`; in general the
computation returns at most 10 entries, excludes stop words and purely
numeric tokens, strips possessive suffixes (every returned word is a fixed
point of the stripping), is case-insensitive (texts equal up to lowering give
equal results), and orders entries by descending count with ties broken by
first-encountered order in the token stream. -/
theorem get_top_words_spec :
    (get_top_words true ["The cat sat. The cat ran."]).head? =
        some { word := "cat", count := 2 }
    ∧ (∀ itw text, (get_top_words itw text).length ≤ 10)
    ∧ (∀ itw text e, e ∈ get_top_words itw text →
        is_stop_word e.word.data = false ∧ digits_only e.word.data = false
          ∧ strip_possessive e.word.data = e.word.data)
    ∧ (∀ itw t1 t2, t1.map lower_string = t2.map lower_string →
        get_top_words itw t1 = get_top_words itw t2)
    ∧ (∀ itw text, List.Pairwise
        (fun a b => b.count ≤ a.count ∧ (a.count = b.count →
          first_idx a.word.data (filtered_words text)
            < first_idx b.word.data (filtered_words text)))
        (get_top_words itw text)) := by
  refine ⟨by decide, ?_, ?_, ?_, get_top_words_pairwise⟩
  · intro itw text
    cases itw with
    | false => simp [get_top_words]
    | true =>
      unfold get_top_words most_common
      simp only [Bool.not_true, Bool.false_eq_true, if_false, List.length_map,
        List.length_take]
      exact Nat.min_le_left _ _
  · intro itw text e he
    have hfw := mem_get_top_words itw text e he
    obtain ⟨⟨t, htmem, heq⟩, hstop, hdig⟩ := mem_filtered_words text _ hfw
    refine ⟨hstop, hdig, ?_⟩
    rw [heq]
    exact strip_possessive_idem t (tokenize_chars_shape _ t htmem)
  · intro itw t1 t2 h
    exact get_top_words_congr itw t1 t2 (joined_lower_congr t1 t2 h)

/-- Witness for C9: the exclusion and possessive facts applied at the entry
for "cat" of the concrete example, and case-insensitivity applied at two
concrete spellings of one sentence. -/
theorem get_top_words_spec_witness :
    (is_stop_word ("cat" : String).data = false
      ∧ digits_only ("cat" : String).data = false
      ∧ strip_possessive ("cat" : String).data = ("cat" : String).data)
    ∧ get_top_words true ["The CAT sat."] = get_top_words true ["the cat SAT."] :=
  ⟨get_top_words_spec.2.2.1 true ["The cat sat. The cat ran."]
      { word := "cat", count := 2 } (by decide),
   get_top_words_spec.2.2.2.1 true ["The CAT sat."] ["the cat SAT."] (by decide)⟩

end TassScraper
